import Mathlib

set_option maxRecDepth 10000

namespace McgNG

/-! Shallow embedding of the MechCommander Gold NG asset pipeline:
    `lz_decompress.cpp`, `fst_reader.cpp`, `pak_reader.cpp`, `shape_reader.cpp`.
    Bytes are `Nat` values; every fetch of a `uint8_t` is taken `% 256`, and
    `uint32_t` wraparound is made explicit where the C++ relies on it. -/

/-- Unsigned 32-bit subtraction `a - b` as performed on `uint32_t`
    (both operands below `2^32`). -/
def u32sub (a b : Nat) : Nat := (a + 4294967296 - b) % 4294967296

/-- State of `lzDecompress` (lz_decompress.cpp, lines 38-56).  `out` holds the
    bytes written to `dest` so far, most recent first; the hash table maps an
    index (code - 258) to its `(chain, suffix)` pair, all entries initially 0. -/
structure LzSt where
  codeMask : Nat
  maxIndex : Nat
  freeIndex : Nat
  oldChain : Nat
  oldSuffix : Nat
  bitCount : Nat
  srcPos : Nat
  bitBuffer : Nat
  bitsInBuffer : Nat
  out : List Nat
  table : Nat → Nat × Nat

/-- Initial state of `lzDecompress` after the `memset` and variable setup. -/
def lzInit : LzSt :=
  { codeMask := 511, maxIndex := 512, freeIndex := 258, oldChain := 0,
    oldSuffix := 0, bitCount := 9, srcPos := 0, bitBuffer := 0,
    bitsInBuffer := 0, out := [], table := fun _ => (0, 0) }

/-- One pass of the byte-fill loop inside `readCode`
    (`while (bitsInBuffer < bitCount && srcPos < srcLen)`). -/
def fillStep (src : List Nat) (s : LzSt) : LzSt :=
  if s.bitsInBuffer < s.bitCount ∧ s.srcPos < src.length then
    { s with bitBuffer := s.bitBuffer ||| ((src.getD s.srcPos 0 % 256) <<< s.bitsInBuffer),
             bitsInBuffer := s.bitsInBuffer + 8,
             srcPos := s.srcPos + 1 }
  else s

/-- `readCode` from lz_decompress.cpp lines 59-70.  Since `bitCount ≤ 12` the
    fill loop runs at most twice, so two guarded passes are exactly the loop.
    The final `bitsInBuffer -= bitCount` is `uint32_t` arithmetic and may wrap. -/
def readCodeM (src : List Nat) (s : LzSt) : Nat × LzSt :=
  let s2 := fillStep src (fillStep src s)
  (s2.bitBuffer &&& s2.codeMask,
   { s2 with bitBuffer := s2.bitBuffer >>> s2.bitCount,
             bitsInBuffer := u32sub s2.bitsInBuffer s2.bitCount })

/-- Append a byte to the output if capacity remains
    (`if (destPos < destLen) dest[destPos++] = b`). -/
def emitB (destLen : Nat) (out : List Nat) (b : Nat) : List Nat :=
  if out.length < destLen then b :: out else out

/-- `readFirstCode` from lz_decompress.cpp lines 73-90; `false` means the
    caller returns / breaks. -/
def readFirstCodeM (src : List Nat) (destLen : Nat) (s : LzSt) : Bool × LzSt :=
  if src.length - 3 < s.srcPos then (false, s)
  else
    let r := readCodeM src s
    if r.1 = 257 then (false, r.2)
    else
      let s1 := { r.2 with oldChain := r.1, oldSuffix := r.1 % 256 }
      (true, { s1 with out := emitB destLen s1.out s1.oldSuffix })

/-- The chain-following loop of lz_decompress.cpp lines 130-136: pushes suffix
    bytes while `code ≥ 258`; `none` models the `return 0` taken when
    `stackPos` reaches 4096 (the `charStack` capacity).  The fuel 4097 passed
    by the caller always exceeds the number of possible pushes. -/
def chainFollow (table : Nat → Nat × Nat) : Nat → Nat → List Nat → Option (Nat × List Nat)
  | 0, _, _ => none
  | fuel + 1, code, stack =>
    if code < 258 then some (code, stack)
    else if 4096 ≤ stack.length then none
    else chainFollow table fuel (table (code - 258)).1 ((table (code - 258)).2 :: stack)

/-- Result of one iteration of the main decompression loop. -/
inductive LzStep where
  | halt (r : Nat × List Nat)
  | next (s : LzSt)

/-- One iteration of the main loop of `lzDecompress`
    (lz_decompress.cpp lines 98-168). -/
def lzIter (src : List Nat) (destLen : Nat) (s : LzSt) : LzStep :=
  let r := readCodeM src s
  let code := r.1
  let s1 := r.2
  if code = 257 then .halt (s1.out.length, s1.out.reverse)
  else if code = 256 then
    let s2 := { s1 with bitCount := 9, codeMask := 511, maxIndex := 512, freeIndex := 258 }
    let f := readFirstCodeM src destLen s2
    if f.1 then .next f.2 else .halt (f.2.out.length, f.2.out.reverse)
  else
    let newChain := code
    let start := if s1.freeIndex ≤ code then (s1.oldChain, [s1.oldSuffix]) else (code, ([] : List Nat))
    match chainFollow s1.table 4097 start.1 start.2 with
    | none => .halt (0, s1.out.reverse)
    | some (codeF, stackF) =>
      let suffix := codeF % 256
      let out1 := stackF.foldl (emitB destLen) (emitB destLen s1.out suffix)
      let s2 :=
        if s1.freeIndex < 5719 then
          let s3 := { s1 with
            table := fun i => if i = s1.freeIndex - 258 then (s1.oldChain % 65536, suffix) else s1.table i,
            freeIndex := s1.freeIndex + 1 }
          if s3.maxIndex ≤ s3.freeIndex ∧ s3.bitCount < 12 then
            { s3 with bitCount := s3.bitCount + 1, maxIndex := s3.maxIndex <<< 1,
                      codeMask := (s3.codeMask <<< 1) ||| 1 }
          else s3
        else s1
      .next { s2 with oldChain := newChain, oldSuffix := suffix, out := out1 }

/-- The `while (srcPos <= srcLen)` loop; `none` means the supplied fuel ran
    out before the loop exited (there are inputs on which no fuel suffices). -/
def lzLoop (src : List Nat) (destLen : Nat) : Nat → LzSt → Option (Nat × List Nat)
  | 0, _ => none
  | fuel + 1, s =>
    if s.srcPos ≤ src.length then
      match lzIter src destLen s with
      | .halt r => some r
      | .next s' => lzLoop src destLen fuel s'
    else some (s.out.length, s.out.reverse)

/-- `lzDecompress` (lz_decompress.cpp lines 29-171), fuel-indexed: the result
    is the returned byte count paired with the bytes actually written to
    `dest` (always a prefix of the destination buffer). -/
def lzDecompressF (fuel : Nat) (src : List Nat) (destLen : Nat) : Option (Nat × List Nat) :=
  if src.length < 3 ∨ destLen = 0 then some (0, [])
  else
    let f := readFirstCodeM src destLen lzInit
    if f.1 then lzLoop src destLen fuel f.2
    else some (f.2.out.length, f.2.out.reverse)

/-- States of the decoder on the truncated stream `[5,0,0]` from which the
    main loop can never exit: the remaining source bytes are zero, the bit
    buffer is empty, and the free index is past the reserved codes. -/
def lzStuck (s : LzSt) : Prop :=
  2 ≤ s.srcPos ∧ s.srcPos ≤ 3 ∧ s.bitBuffer = 0 ∧ 258 ≤ s.freeIndex

/-! ### `std::ifstream` model

State of an open input stream: `opn` mirrors `is_open()`, `fail` the failbit,
`pos` the read position.  Reads on a failed stream are no-ops; a read past the
end of the file delivers the available bytes and latches the failbit; `seekg`
on a failed stream does nothing (the sentry fails).  Calls on a closed stream
are guarded by `is_open()` checks in every modeled caller. -/

structure StreamSt where
  opn : Bool
  fail : Bool
  pos : Nat
deriving DecidableEq

/-- A freshly opened stream. -/
def freshOpen : StreamSt := ⟨true, false, 0⟩

/-- `seekg(off, std::ios::beg)`. -/
def seekg (st : StreamSt) (off : Nat) : StreamSt :=
  if st.fail then st else { st with pos := off }

/-- `read(buf, n)`: returns the bytes delivered and the new state. -/
def sread (file : List Nat) (st : StreamSt) (n : Nat) : List Nat × StreamSt :=
  if st.fail then ([], st)
  else if st.pos + n ≤ file.length then
    ((file.drop st.pos).take n, { st with pos := st.pos + n })
  else ((file.drop st.pos).take n, { st with pos := file.length, fail := true })

/-- Little-endian value of a byte list (used for every `memcpy`/`read` of a
    `uint32_t` from file bytes; short lists mean the missing high bytes kept
    their zero initialization). -/
def leNat : List Nat → Nat
  | [] => 0
  | b :: rest => b % 256 + 256 * leNat rest

/-! ### FST flat-archive reader (fst_reader.cpp) -/

/-- `FstEntry` (fst_reader.h lines 25-34); the path is kept as its byte list. -/
structure FstEntry where
  dataOffset : Nat
  compressedSize : Nat
  uncompressedSize : Nat
  filePath : List Nat
deriving DecidableEq

/-- `FstEntry::isCompressed`. -/
def isCompressedB (e : FstEntry) : Bool :=
  decide (e.compressedSize < e.uncompressedSize ∧ 0 < e.compressedSize)

/-- `FstReader::readRawData` (fst_reader.cpp lines 134-148).  Note: on failure
    the error state is NOT cleared. -/
def readRawDataFst (file : List Nat) (st : StreamSt) (off n : Nat) : List Nat × StreamSt :=
  if ¬ st.opn ∨ n = 0 then ([], st)
  else
    let r := sread file (seekg st off) n
    if r.2.fail then ([], r.2) else r

/-- `PakReader::readRawData` (pak_reader.cpp lines 174-189): identical except
    that `m_file.clear()` resets the error state on failure. -/
def readRawDataPak (file : List Nat) (st : StreamSt) (off n : Nat) : List Nat × StreamSt :=
  if ¬ st.opn ∨ n = 0 then ([], st)
  else
    let r := sread file (seekg st off) n
    if r.2.fail then ([], { r.2 with fail := false }) else r

/-- `decompress` (lz_decompress.cpp lines 216-247).  `zlibM` abstracts the
    external zlib-backed `zlibDecompress`: given the source bytes and the
    current destination buffer it yields the produced byte count and the
    buffer contents afterwards.  `none` propagates fuel exhaustion of the
    custom decoder (which can really diverge). -/
def decompressM (fuel : Nat) (zlibM : List Nat → List Nat → Nat × List Nat)
    (src : List Nat) (n : Nat) (useZlib : Bool) : Option (List Nat) :=
  if src = [] ∨ n = 0 then some []
  else
    let buf0 := List.replicate n 0
    if useZlib then
      let r := zlibM src buf0
      some (if r.1 = 0 then [] else r.2.take r.1)
    else
      match lzDecompressF fuel src n with
      | none => none
      | some (a, out) =>
        let buf1 := out ++ List.replicate (n - out.length) 0
        if a < n / 2 then
          let r := zlibM src buf1
          let a2 := if a < r.1 then r.1 else a
          some (if a2 = 0 then [] else r.2.take a2)
        else some (if a = 0 then [] else buf1.take a)

/-- `FstReader::readFile(const FstEntry&)` (fst_reader.cpp lines 150-170). -/
def readFileM (fuel : Nat) (zlibM : List Nat → List Nat → Nat × List Nat)
    (file : List Nat) (st : StreamSt) (e : FstEntry) : Option (List Nat) × StreamSt :=
  if ¬ st.opn then (some [], st)
  else
    let rsz := if isCompressedB e then e.compressedSize else e.uncompressedSize
    let r := readRawDataFst file st e.dataOffset rsz
    if r.1 = [] then (some [], r.2)
    else if ¬ isCompressedB e then (some r.1, r.2)
    else (decompressM fuel zlibM r.1 e.uncompressedSize false, r.2)

/-- Bytes stripped from the tail of an entry path. -/
def isTrimByte (c : Nat) : Bool := c == 0 || c == 32 || c == 13 || c == 10

/-- Path cleanup of `readEntryTable`: truncate at the first NUL (the
    `char*`-to-`std::string` assignment), turn backslashes into slashes, strip
    trailing NUL/space/CR/LF. -/
def cleanPath (b : List Nat) : List Nat :=
  ((((b.takeWhile (· != 0)).map (fun c => if c = 92 then 47 else c)).reverse.dropWhile
    isTrimByte)).reverse

/-- The entry-reading loop of `FstReader::readEntryTable`
    (fst_reader.cpp lines 77-106). -/
def readEntriesLoop (file : List Nat) : Nat → StreamSt → Bool × List FstEntry × StreamSt
  | 0, st => (true, [], st)
  | k + 1, st =>
    let r1 := sread file st 4
    let r2 := sread file r1.2 4
    let r3 := sread file r2.2 4
    let r4 := sread file r3.2 250
    if r4.2.fail then (false, [], r4.2)
    else
      let e : FstEntry :=
        { dataOffset := leNat r1.1, compressedSize := leNat r2.1,
          uncompressedSize := leNat r3.1, filePath := cleanPath r4.1 }
      let rest := readEntriesLoop file k r4.2
      (rest.1, e :: rest.2.1, rest.2.2)

/-- `FstReader::readEntryTable` (fst_reader.cpp lines 60-109). -/
def readEntryTableM (file : List Nat) (st : StreamSt) : Bool × List FstEntry × StreamSt :=
  let r := sread file st 4
  if r.2.fail then (false, [], r.2)
  else
    let n := leNat r.1
    if 100000 < n then (false, [], r.2)
    else readEntriesLoop file n r.2

/-- An `FstReader` object. -/
structure FstHandle where
  stream : StreamSt
  path : String
  entries : List FstEntry
deriving DecidableEq

/-- `FstReader::close` (fst_reader.cpp lines 52-58). -/
def closeFst (h : FstHandle) : FstHandle :=
  { stream := { h.stream with opn := false }, path := "", entries := [] }

/-- A default-constructed (never-opened) `FstReader`. -/
def fstFresh : FstHandle := ⟨⟨false, false, 0⟩, "", []⟩

/-- `FstReader::open` (fst_reader.cpp lines 32-50) over an abstract
    filesystem `fs`. -/
def openFstM (fs : String → Option (List Nat)) (h : FstHandle) (p : String) :
    Bool × FstHandle :=
  let h0 := closeFst h
  match fs p with
  | none => (false, { h0 with stream := { h0.stream with fail := true } })
  | some file =>
    let h1 : FstHandle := { stream := freshOpen, path := p, entries := [] }
    let r := readEntryTableM file freshOpen
    if r.1 then (true, { stream := r.2.2, path := p, entries := r.2.1 })
    else (false, closeFst h1)

/-! ### PAK seek-table reader (pak_reader.cpp) -/

/-- `PakEntry` (pak_reader.h lines 29-34); the storage type is kept as the
    raw 3-bit value (0=RAW, 1=FWF, 2=LZD, 3=HF, 4=ZLIB, 7=NUL). -/
structure PakEntry where
  offset : Nat
  storageType : Nat
  packedSize : Nat
  unpackedSize : Nat
deriving DecidableEq

/-- Group a byte list into little-endian `uint32_t` words (the single
    `m_file.read` of the whole seek table). -/
def chunk4 : List Nat → List Nat
  | a :: b :: c :: d :: rest =>
    (a % 256 + 256 * (b % 256) + 65536 * (c % 256) + 16777216 * (d % 256)) :: chunk4 rest
  | _ => []

/-- The eager read of a compressed packet's 4-byte unpacked-size field
    (pak_reader.cpp lines 133-140): save the position, seek to the entry,
    read, seek back. -/
def readUnpacked (file : List Nat) (st : StreamSt) (off : Nat) : Nat × StreamSt :=
  let cur := st.pos
  let st1 := seekg st off
  let r := sread file st1 4
  (leNat r.1, seekg r.2 cur)

/-- The entry-building loop of `PakReader::readSeekTable`
    (pak_reader.cpp lines 114-148), threading the stream state used by the
    unpacked-size reads.  `fsz` is `static_cast<uint32_t>(m_fileSize)`. -/
def mkEntriesSt (file : List Nat) (fsz : Nat) : List Nat → StreamSt → List PakEntry × StreamSt
  | [], st => ([], st)
  | w :: rest, st =>
    let off := w % 536870912
    let ty := w / 536870912
    let next :=
      match rest with
      | w2 :: _ => w2 % 536870912
      | [] => fsz
    let packed := u32sub next off
    let r :=
      if ty = 2 ∨ ty = 4 then readUnpacked file st off
      else if ty = 0 ∨ ty = 1 then (packed, st)
      else (0, st)
    let rec2 := mkEntriesSt file fsz rest r.2
    ({ offset := off, storageType := ty, packedSize := packed, unpackedSize := r.1 } :: rec2.1,
     rec2.2)

/-- `PakReader::readSeekTable` (pak_reader.cpp lines 71-151); the magic word
    is read but advisory only. -/
def readSeekTableM (file : List Nat) (st : StreamSt) : Bool × List PakEntry × StreamSt :=
  let rm := sread file st 4
  if rm.2.fail then (false, [], rm.2)
  else
    let rf := sread file rm.2 4
    if rf.2.fail then (false, [], rf.2)
    else
      let fo := leNat rf.1
      let n := u32sub (fo / 4) 2
      if 1000000 < n ∨ file.length < fo then (false, [], rf.2)
      else
        let rt := sread file rf.2 (n * 4)
        if rt.2.fail then (false, [], rt.2)
        else
          let r := mkEntriesSt file (file.length % 4294967296) (chunk4 rt.1) rt.2
          (true, r.1, r.2)

/-- A `PakReader` object. -/
structure PakHandle where
  stream : StreamSt
  path : String
  entries : List PakEntry
  fileSize : Nat
deriving DecidableEq

/-- `PakReader::close` (pak_reader.cpp lines 62-69). -/
def closePak (h : PakHandle) : PakHandle :=
  { stream := { h.stream with opn := false }, path := "", entries := [], fileSize := 0 }

/-- A default-constructed (never-opened) `PakReader`. -/
def pakFresh : PakHandle := ⟨⟨false, false, 0⟩, "", [], 0⟩

/-- `PakReader::open` (pak_reader.cpp lines 37-60) over an abstract
    filesystem `fs`. -/
def openPakM (fs : String → Option (List Nat)) (h : PakHandle) (p : String) :
    Bool × PakHandle :=
  let h0 := closePak h
  match fs p with
  | none => (false, { h0 with stream := { h0.stream with fail := true } })
  | some file =>
    let h1 : PakHandle := { stream := freshOpen, path := p, entries := [], fileSize := file.length }
    let r := readSeekTableM file freshOpen
    if r.1 then (true, { stream := r.2.2, path := p, entries := r.2.1, fileSize := file.length })
    else (false, closePak h1)

/-- `PakReader::getPacketSize` (pak_reader.cpp lines 167-172): returns the
    stored `unpackedSize`. -/
def getPacketSizeM (h : PakHandle) (i : Nat) : Nat :=
  if h.entries.length ≤ i then 0 else (h.entries.getD i ⟨0, 0, 0, 0⟩).unpackedSize

/-! ### Shape table reader (shape_reader.cpp)

The table buffer is a function `mem : Nat → Nat` from absolute byte position
to byte value together with the buffer size `m_size`; this makes the absence
of bounds clamping in `decodeShape` observable (a read at a position `≥ size`
is a read past the end of the C++ buffer). -/

/-- Little-endian `uint32_t` fetched from the buffer at position `a`. -/
def leU32 (mem : Nat → Nat) (a : Nat) : Nat :=
  mem a % 256 + 256 * (mem (a + 1) % 256) + 65536 * (mem (a + 2) % 256) +
    16777216 * (mem (a + 3) % 256)

/-- Little-endian `int32_t` fetched from the buffer at position `a`. -/
def leI32 (mem : Nat → Nat) (a : Nat) : Int :=
  let u := leU32 mem a
  if u < 2147483648 then (u : Int) else (u : Int) - 4294967296

/-- `static_cast<int16_t>` of a low 16-bit chunk. -/
def toInt16 (u : Nat) : Int :=
  let v := u % 65536
  if v < 32768 then (v : Int) else (v : Int) - 65536

/-- Decoded image (`ShapeData`, shape_reader.h lines 26-38). -/
structure ShapeData where
  width : Int
  height : Int
  hotspotX : Int
  hotspotY : Int
  pixels : List Nat
deriving DecidableEq

/-- The empty default image `ShapeData{}`. -/
def defaultShape : ShapeData := ⟨0, 0, 0, 0, []⟩

/-- A loaded shape table: the fields of `ShapeReader` set by `load`. -/
structure LoadedShape where
  headerOffset : Nat
  shapeCount : Nat
  offsets : List Nat
deriving DecidableEq

/-- `ShapeReader::load` (shape_reader.cpp lines 13-68). -/
def loadShapeM (mem : Nat → Nat) (size : Nat) : Option LoadedShape :=
  if size < 8 then none
  else
    let hOff : Option Nat :=
      if 11 ≤ size ∧ mem 7 % 256 = 49 ∧ mem 8 % 256 = 46 ∧ mem 9 % 256 = 49 ∧
          mem 10 % 256 = 48 then some 7
      else if 4 ≤ size ∧ 48 ≤ mem 0 % 256 ∧ mem 0 % 256 ≤ 57 ∧ mem 1 % 256 = 46 then some 0
      else none
    match hOff with
    | none => none
    | some h =>
      let count := leU32 mem (h + 4)
      if 10000 < count then none
      else if size < h + 8 + count * 8 then none
      else some { headerOffset := h, shapeCount := count,
                  offsets := (List.range count).map (fun i => leU32 mem (h + 8 + i * 8)) }

/-- State of the RLE decoding loop, plus the ghost list `wr` of pixel indices
    written so far (most recent first); `pix` is computed exactly as the
    source computes `dest`. -/
structure RleSt where
  pix : List Nat
  wr : List Nat
  x : Nat
  y : Nat
  pos : Nat

/-- The guarded pixel store `if (x < width && y < height) dest[y*width+x] = v`. -/
def writeAt (w h v : Nat) (s : RleSt) : RleSt :=
  if s.x < w ∧ s.y < h then
    { s with pix := s.pix.set (s.y * w + s.x) v, wr := (s.y * w + s.x) :: s.wr }
  else s

/-- The string-packet loop of `decodeRLE` (shape_reader.cpp lines 205-213). -/
def rleLit (mem : Nat → Nat) (endPos w h : Nat) : Nat → RleSt → RleSt
  | 0, s => s
  | c + 1, s =>
    if s.pos < endPos then
      rleLit mem endPos w h c
        (let s1 := writeAt w h (mem s.pos % 256) s
         { s1 with x := s1.x + 1, pos := s1.pos + 1 })
    else s

/-- The run-packet loop of `decodeRLE` (shape_reader.cpp lines 214-224). -/
def rleRun (w h v : Nat) : Nat → RleSt → RleSt
  | 0, s => s
  | c + 1, s => rleRun w h v c (let s1 := writeAt w h v s; { s1 with x := s1.x + 1 })

/-- `ShapeReader::decodeRLE` (shape_reader.cpp lines 160-228).  `endPos` is
    the absolute end of the RLE region; positions are absolute buffer
    positions.  The fuel passed by `decodeShapeFull` exceeds the region size,
    and every iteration consumes at least one source byte, so the fuel never
    runs out. -/
def decodeRLEM (mem : Nat → Nat) (endPos w h : Nat) : Nat → RleSt → RleSt
  | 0, s => s
  | fuel + 1, s =>
    if s.pos < endPos ∧ s.y < h then
      let marker := mem s.pos % 256
      let s1 := { s with pos := s.pos + 1 }
      if marker = 0 then decodeRLEM mem endPos w h fuel { s1 with x := 0, y := s1.y + 1 }
      else if marker = 1 then
        if endPos ≤ s1.pos then s1
        else decodeRLEM mem endPos w h fuel
          { s1 with x := s1.x + mem s1.pos % 256, pos := s1.pos + 1 }
      else if marker % 2 = 1 then
        decodeRLEM mem endPos w h fuel (rleLit mem endPos w h (marker / 2) s1)
      else
        if endPos ≤ s1.pos then s1
        else decodeRLEM mem endPos w h fuel
          (rleRun w h (mem s1.pos % 256) (marker / 2) { s1 with pos := s1.pos + 1 })
    else s

/-- `ShapeReader::decodeShape` (shape_reader.cpp lines 106-158), returning the
    decoded image together with the ghost write-index list. -/
def decodeShapeFull (mem : Nat → Nat) (size : Nat) (L : LoadedShape) (index : Nat) :
    ShapeData × List Nat :=
  if L.shapeCount ≤ index then (defaultShape, [])
  else
    let off := L.offsets.getD index 0
    if size < off + 24 then (defaultShape, [])
    else
      let origin := leU32 mem (off + 4)
      let w := leI32 mem (off + 16) - leI32 mem (off + 8) + 1
      let h := leI32 mem (off + 20) - leI32 mem (off + 12) + 1
      if w ≤ 0 ∨ h ≤ 0 ∨ 1024 < w ∨ 1024 < h then (defaultShape, [])
      else
        let wN := w.toNat
        let hN := h.toNat
        let off2 := off + 24
        if size ≤ off2 then (defaultShape, [])
        else
          let rleSize :=
            if index + 1 < L.shapeCount ∧ off2 < L.offsets.getD (index + 1) 0 then
              L.offsets.getD (index + 1) 0 - off2
            else size - off2
          let r := decodeRLEM mem (off2 + rleSize) wN hN (rleSize + 1)
            ⟨List.replicate (wN * hN) 0, [], 0, 0, off2⟩
          ({ width := w, height := h, hotspotX := toInt16 (origin / 65536),
             hotspotY := toInt16 (origin % 65536), pixels := r.pix }, r.wr)

/-- Least upper bound (exclusive) of the buffer positions `decodeShape` can
    read while decoding shape `index`: the header reads stay below `size` and
    the RLE reads stay below the end the code computes for the region, which
    is `offsets[index+1]` when that lies past the header and the shape is not
    the last one -- with no clamp to `size`. -/
def rleBound (size : Nat) (L : LoadedShape) (i : Nat) : Nat :=
  let o2 := L.offsets.getD i 0 + 24
  if i + 1 < L.shapeCount ∧ o2 < L.offsets.getD (i + 1) 0 then
    max size (L.offsets.getD (i + 1) 0)
  else size

/-- Every pixel index not recorded in the ghost write list still holds the
    transparent index 0. -/
def RleZero (s : RleSt) : Prop := ∀ j, j ∉ s.wr → s.pix.getD j 0 = 0

/-! ### Concrete fixtures used by counterexamples and witnesses -/

/-- A 49-byte shape table with two shapes; shape 0 is 1x1 with its run-packet
    color byte at position 49 = the buffer size, and `offsets[1] = 51` lies
    past the buffer end. -/
def shpCexData : List Nat :=
  [49, 46, 49, 48, 2, 0, 0, 0, 24, 0, 0, 0, 0, 0, 0, 0, 51, 0, 0, 0, 0, 0, 0, 0] ++
  List.replicate 24 0 ++ [2]

/-- The counterexample buffer continued past its end with byte 7. -/
def shpCex1 (k : Nat) : Nat := (shpCexData ++ [7, 0]).getD k 0

/-- The counterexample buffer continued past its end with byte 9. -/
def shpCex2 (k : Nat) : Nat := (shpCexData ++ [9, 0]).getD k 0

/-- The table both counterexample buffers load to. -/
def shpCexL : LoadedShape := ⟨0, 2, [24, 51]⟩

/-- Like `shpCexData` but with `offsets[1] = 49`, so the RLE region ends at
    the buffer end. -/
def shpFrameData : List Nat :=
  [49, 46, 49, 48, 2, 0, 0, 0, 24, 0, 0, 0, 0, 0, 0, 0, 49, 0, 0, 0, 0, 0, 0, 0] ++
  List.replicate 24 0 ++ [2]

/-- The in-bounds fixture as a byte function. -/
def shpFrame1 (k : Nat) : Nat := shpFrameData.getD k 0

/-- The in-bounds fixture with different bytes past the buffer end. -/
def shpFrame2 (k : Nat) : Nat := if k < 49 then shpFrameData.getD k 0 else 5

/-- The table loaded from the in-bounds fixture. -/
def shpFrameL : LoadedShape := ⟨0, 2, [24, 49]⟩

/-- A 40-byte shape table with one shape whose header gives width 1025
    (xmax = 1024, xmin = 0). -/
def shpRejData : List Nat :=
  [49, 46, 49, 48, 1, 0, 0, 0, 16, 0, 0, 0, 0, 0, 0, 0] ++
  List.replicate 16 0 ++ [0, 4, 0, 0] ++ [0, 0, 0, 0]

/-- The oversized-shape fixture as a byte function. -/
def shpRej (k : Nat) : Nat := shpRejData.getD k 0

/-- A 43-byte shape table with one valid 2x2 shape whose RLE data is a run
    packet `[4, 7]` followed by an end-of-line marker. -/
def shpOkData : List Nat :=
  [49, 46, 49, 48, 1, 0, 0, 0, 16, 0, 0, 0, 0, 0, 0, 0] ++
  [0, 0, 0, 0, 0, 0, 0, 0, 0, 0, 0, 0, 0, 0, 0, 0, 1, 0, 0, 0, 1, 0, 0, 0] ++ [4, 7, 0]

/-- The valid 2x2 fixture as a byte function. -/
def shpOk (k : Nat) : Nat := shpOkData.getD k 0

/-- A 10-byte backing file for the stream fixtures. -/
def f10 : List Nat := [0, 1, 2, 3, 4, 5, 6, 7, 8, 9]

/-- A 20-byte seek-table archive whose single RAW entry claims offset 14
    although its directory ends at offset 12. -/
def pakCexFile : List Nat :=
  [206, 250, 237, 254, 12, 0, 0, 0, 14, 0, 0, 0] ++ List.replicate 8 1

/-- A well-formed 20-byte seek-table archive: one RAW entry at offset 12. -/
def pakOkFile : List Nat :=
  [206, 250, 237, 254, 12, 0, 0, 0, 12, 0, 0, 0] ++ List.replicate 8 1

/-- A 13-byte backing file whose bytes 8..12 spell "hello". -/
def helloFile : List Nat := List.replicate 8 0 ++ [104, 101, 108, 108, 111]

/-- The flat-archive entry of the spec scenario:
    offset 8, compressedSize 0, uncompressedSize 5, path "a.txt". -/
def helloEntry : FstEntry := ⟨8, 0, 5, [97, 46, 116, 120, 116]⟩

/-- A zlib oracle that always fails without touching the buffer. -/
def zlibNever (s d : List Nat) : Nat × List Nat := (0, d)

/-- A zlib oracle that reports 4 bytes produced and fills the buffer with 9s. -/
def zlibFour (s d : List Nat) : Nat × List Nat := (4, List.replicate 10 9)

/-! ## Theorems -/

lemma fillStep_stuck (s : LzSt) (h : lzStuck s) : lzStuck (fillStep [5, 0, 0] s) := by
  obtain ⟨h1, h2, h3, h4⟩ := h
  unfold fillStep
  split
  · next hc =>
    have hp : s.srcPos = 2 := by
      simp only [List.length_cons, List.length_nil] at hc
      omega
    refine ⟨?_, ?_, ?_, h4⟩ <;> simp [hp, h3]
  · exact ⟨h1, h2, h3, h4⟩

lemma readCodeM_stuck (s : LzSt) (h : lzStuck s) :
    (readCodeM [5, 0, 0] s).1 = 0 ∧ lzStuck (readCodeM [5, 0, 0] s).2 := by
  have h2 := fillStep_stuck _ (fillStep_stuck s h)
  obtain ⟨g1, g2, g3, g4⟩ := h2
  unfold readCodeM
  constructor
  · simp [g3]
  · exact ⟨g1, g2, by simp [g3], g4⟩

lemma lzIter_stuck (s : LzSt) (h : lzStuck s) :
    ∃ s', lzIter [5, 0, 0] 100 s = .next s' ∧ lzStuck s' := by
  obtain ⟨hc, hst⟩ := readCodeM_stuck s h
  obtain ⟨g1, g2, g3, g4⟩ := hst
  have hfree : ¬ ((readCodeM [5, 0, 0] s).2.freeIndex ≤ 0) := by omega
  have hchain : chainFollow (readCodeM [5, 0, 0] s).2.table 4097 0 [] = some (0, []) := rfl
  simp only [lzIter, hc, hfree, if_false, if_true,
    if_neg (by decide : ¬ ((0 : Nat) = 257)), if_neg (by decide : ¬ ((0 : Nat) = 256)), hchain]
  refine ⟨_, rfl, ?_, ?_, ?_, ?_⟩ <;>
    (split <;> (try split) <;> simp_all <;> omega)

lemma lzLoop_stuck : ∀ (fuel : Nat) (s : LzSt), lzStuck s → lzLoop [5, 0, 0] 100 fuel s = none := by
  intro fuel
  induction fuel with
  | zero => intro s _; rfl
  | succ f ih =>
    intro s hs
    obtain ⟨s', hiter, hs'⟩ := lzIter_stuck s hs
    have hle : s.srcPos ≤ 3 := hs.2.1
    simp only [lzLoop, List.length_cons, List.length_nil]
    rw [if_pos (by omega), hiter]
    exact ih s' hs'

/-- C7 (code_bug): on the failing input `src = [5,0,0]` (a stream whose bit
    supply runs out before any EndOfData code), `lzDecompress` never returns:
    `bitsInBuffer` wraps around as an unsigned subtraction, `srcPos` stops
    advancing, and the main loop condition `srcPos <= srcLen` stays true
    forever, so no amount of fuel makes the model terminate — contradicting
    the claim that the function always returns a byte count. -/
theorem lz_truncated_stream_diverges : ∀ fuel : Nat, lzDecompressF fuel [5, 0, 0] 100 = none := by
  intro fuel
  have h0 : (readFirstCodeM [5, 0, 0] 100 lzInit).1 = true := by decide
  have h1 : lzStuck (readFirstCodeM [5, 0, 0] 100 lzInit).2 := by
    refine ⟨?_, ?_, ?_, ?_⟩ <;> decide
  simp only [lzDecompressF, List.length_cons, List.length_nil]
  rw [if_neg (by decide)]
  simp only [h0, if_true]
  exact lzLoop_stuck fuel _ h1

/-- C1 (counterexample): the 9-bit stream `[0x00, 0x03, 0x02]` encodes exactly
    the code 256 (ClearTable) followed by 257 (EndOfData), yet `lzDecompress`
    returns 1 byte (a single 0), not 0 bytes: the initial `readFirstCode` does
    not treat a leading ClearTable code specially and emits it as a literal. -/
theorem lz_clear_eof_counterexample :
    lzDecompressF 10 [0, 3, 2] 16 = some (1, [0]) ∧
      ((1 : Nat), ([0] : List Nat)) ≠ ((0 : Nat), ([] : List Nat)) := by
  exact ⟨rfl, by decide⟩

/-- C1 (corrected): for the custom-LZ stream `[0x00, 0x03, 0x02]` (ClearTable
    immediately followed by EndOfData, 9-bit codes), `lzDecompress` treats the
    leading ClearTable code as an ordinary literal, writes the single byte
    `256 & 0xFF = 0`, stops at EndOfData, and returns a count of 1 — with no
    error or exception — for every sufficient fuel. -/
theorem lz_clear_eof_stream : ∀ fuel : Nat, lzDecompressF (fuel + 1) [0, 3, 2] 16 = some (1, [0]) := by
  intro fuel
  rfl

lemma pakRead_post (file : List Nat) (st : StreamSt) (off n : Nat)
    (h1 : st.opn = true) (h2 : st.fail = false) :
    (readRawDataPak file st off n).2.opn = true ∧ (readRawDataPak file st off n).2.fail = false := by
  unfold readRawDataPak sread seekg
  simp only [h1, h2]
  split <;> simp_all <;> split <;> simp_all

lemma pakRead_result_eq (file : List Nat) (st : StreamSt) (off n : Nat)
    (h1 : st.opn = true) (h2 : st.fail = false) :
    (readRawDataPak file st off n).1 = (readRawDataPak file freshOpen off n).1 := by
  unfold readRawDataPak sread seekg freshOpen
  simp only [h1, h2]
  split <;> simp_all <;> split <;> simp_all

/-- C3 (corrected, amended part): the seek-table reader's `readRawData` clears
    the stream error state, so after any previous read — failed or not — on a
    handle that started open and clean, a subsequent read returns exactly the
    bytes a fresh handle would return.  (The flat reader does not clear the
    state; see the counterexample.) -/
theorem pak_read_after_failure_recovers (file : List Nat) (st : StreamSt)
    (off1 n1 off2 n2 : Nat) (h1 : st.opn = true) (h2 : st.fail = false) :
    (readRawDataPak file (readRawDataPak file st off1 n1).2 off2 n2).1 =
      (readRawDataPak file freshOpen off2 n2).1 := by
  obtain ⟨p1, p2⟩ := pakRead_post file st off1 n1 h1 h2
  exact pakRead_result_eq file _ off2 n2 p1 p2

/-- C3 witness: a concrete recovery on the seek-table reader — after an
    out-of-range read of 20 bytes from a 10-byte file, an in-range read of 5
    bytes still returns the same bytes as on a fresh handle. -/
theorem pak_read_after_failure_recovers_witness :
    freshOpen.opn = true ∧ freshOpen.fail = false ∧
      (readRawDataPak f10 (readRawDataPak f10 freshOpen 0 20).2 0 5).1 =
        (readRawDataPak f10 freshOpen 0 5).1 :=
  ⟨rfl, rfl, pak_read_after_failure_recovers f10 freshOpen 0 20 0 5 rfl rfl⟩

/-- C3 (counterexample): the flat reader's `readRawData` does not clear the
    error state.  On a 10-byte file, a failed 20-byte read leaves the handle
    poisoned: the following in-range 5-byte read returns the empty buffer,
    while a fresh handle returns the requested bytes. -/
theorem fst_error_not_cleared_counterexample :
    (readRawDataFst f10 (readRawDataFst f10 freshOpen 0 20).2 0 5).1 = [] ∧
      (readRawDataFst f10 freshOpen 0 5).1 = [0, 1, 2, 3, 4] ∧
      (([] : List Nat) ≠ [0, 1, 2, 3, 4]) := by
  refine ⟨by decide, by decide, by decide⟩

/-- C9 (confirmed): whenever `open` returns false — for the flat reader and
    the seek-table reader alike — the handle is left closed, with an empty
    entry directory and no archive path (and, for the seek-table reader, a
    zero file size), exactly as on a never-opened handle. -/
theorem open_failure_is_atomic :
    (∀ (fs : String → Option (List Nat)) (h : FstHandle) (p : String) (h' : FstHandle),
      openFstM fs h p = (false, h') →
        h'.stream.opn = false ∧ h'.entries = [] ∧ h'.path = "") ∧
    (∀ (fs : String → Option (List Nat)) (h : PakHandle) (p : String) (h' : PakHandle),
      openPakM fs h p = (false, h') →
        h'.stream.opn = false ∧ h'.entries = [] ∧ h'.path = "" ∧ h'.fileSize = 0) := by
  constructor
  · intro fs h p h' hopen
    unfold openFstM at hopen
    rcases hfs : fs p with _ | file
    · rw [hfs] at hopen
      simp only [Prod.mk.injEq] at hopen
      rw [← hopen.2]
      exact ⟨rfl, rfl, rfl⟩
    · rw [hfs] at hopen
      simp only [] at hopen
      split at hopen
      · simp only [Prod.mk.injEq] at hopen
        exact absurd hopen.1 (by decide)
      · simp only [Prod.mk.injEq] at hopen
        rw [← hopen.2]
        exact ⟨rfl, rfl, rfl⟩
  · intro fs h p h' hopen
    unfold openPakM at hopen
    rcases hfs : fs p with _ | file
    · rw [hfs] at hopen
      simp only [Prod.mk.injEq] at hopen
      rw [← hopen.2]
      exact ⟨rfl, rfl, rfl, rfl⟩
    · rw [hfs] at hopen
      simp only [] at hopen
      split at hopen
      · simp only [Prod.mk.injEq] at hopen
        exact absurd hopen.1 (by decide)
      · simp only [Prod.mk.injEq] at hopen
        rw [← hopen.2]
        exact ⟨rfl, rfl, rfl, rfl⟩

/-- C9 witness: both readers, opened on a filesystem with no files, are left
    in the never-opened configuration. -/
theorem open_failure_is_atomic_witness :
    ((openFstM (fun _ => none) fstFresh "x").2.stream.opn = false ∧
      (openFstM (fun _ => none) fstFresh "x").2.entries = [] ∧
      (openFstM (fun _ => none) fstFresh "x").2.path = "") ∧
    ((openPakM (fun _ => none) pakFresh "x").2.stream.opn = false ∧
      (openPakM (fun _ => none) pakFresh "x").2.entries = [] ∧
      (openPakM (fun _ => none) pakFresh "x").2.path = "" ∧
      (openPakM (fun _ => none) pakFresh "x").2.fileSize = 0) :=
  ⟨open_failure_is_atomic.1 (fun _ => none) fstFresh "x" _ rfl,
   open_failure_is_atomic.2 (fun _ => none) pakFresh "x" _ rfl⟩

/-- C4 (confirmed): in `decompress` with `useZlib = false`, non-empty source
    and positive expected size: when the custom LZ decoder's byte count `a`
    reaches half of `uncompressedSize` (integer division, as in the source),
    its result is returned and the outcome does not depend on the Deflate
    decoder at all; when `a` falls below half, the Deflate decoder is
    attempted on the same source bytes and the result carries the larger of
    the two byte counts. -/
theorem decompress_half_heuristic (fuel : Nat) (zlibM : List Nat → List Nat → Nat × List Nat)
    (src : List Nat) (n a : Nat) (out : List Nat)
    (hsrc : src ≠ []) (hn : 0 < n) (hlz : lzDecompressF fuel src n = some (a, out)) :
    (n / 2 ≤ a →
      (∀ zlibM', decompressM fuel zlibM' src n false = decompressM fuel zlibM src n false) ∧
      decompressM fuel zlibM src n false =
        some (if a = 0 then [] else (out ++ List.replicate (n - out.length) 0).take a)) ∧
    (a < n / 2 →
      decompressM fuel zlibM src n false =
        some (if max a (zlibM src (out ++ List.replicate (n - out.length) 0)).1 = 0 then []
          else (zlibM src (out ++ List.replicate (n - out.length) 0)).2.take
            (max a (zlibM src (out ++ List.replicate (n - out.length) 0)).1))) := by
  have hguard : ¬ (src = [] ∨ n = 0) := by
    rintro (h | h)
    · exact hsrc h
    · omega
  constructor
  · intro hge
    have hnot : ¬ a < n / 2 := by omega
    constructor
    · intro zlibM'
      simp only [decompressM, hguard, if_false, Bool.false_eq_true, hlz, hnot]
    · simp only [decompressM, hguard, if_false, Bool.false_eq_true, hlz, hnot]
  · intro hlt
    have hmax : (if a < (zlibM src (out ++ List.replicate (n - out.length) 0)).1
        then (zlibM src (out ++ List.replicate (n - out.length) 0)).1 else a) =
        max a (zlibM src (out ++ List.replicate (n - out.length) 0)).1 := by
      rcases Nat.lt_or_ge a (zlibM src (out ++ List.replicate (n - out.length) 0)).1 with h | h
      · simp [h, Nat.max_eq_right (Nat.le_of_lt h)]
      · simp [Nat.not_lt.mpr h, Nat.max_eq_left h]
    simp only [decompressM, hguard, if_false, Bool.false_eq_true, hlz, hlt, if_true, hmax]

/-- C4 witness: on the three-byte LZ stream producing one byte, expected size
    2 keeps the LZ result without consulting the Deflate oracle, and expected
    size 10 triggers the fallback and keeps the oracle's 4-byte result. -/
theorem decompress_half_heuristic_witness :
    decompressM 10 zlibFour [0, 3, 2] 2 false = some [0] ∧
      decompressM 10 zlibFour [0, 3, 2] 10 false = some [9, 9, 9, 9] := by
  constructor
  · have h := decompress_half_heuristic 10 zlibFour [0, 3, 2] 2 1 [0]
      (by decide) (by decide) rfl
    rw [(h.1 (by decide)).2]
    decide
  · have h := decompress_half_heuristic 10 zlibFour [0, 3, 2] 10 1 [0]
      (by decide) (by decide) rfl
    rw [h.2 (by decide)]
    decide

lemma readRawDataFst_fresh (file : List Nat) (off n : Nat)
    (hn : n ≠ 0) (hr : off + n ≤ file.length) :
    readRawDataFst file freshOpen off n =
      ((file.drop off).take n, ⟨true, false, off + n⟩) := by
  simp only [readRawDataFst, freshOpen, seekg, sread]
  simp [hn, hr]

/-- C6 (confirmed): for a flat-archive entry whose declared byte range lies
    inside the file, `readFile` returns a buffer of exactly
    `uncompressedSize` bytes — the raw slice when the entry is stored
    uncompressed (`compressedSize < uncompressedSize ∧ compressedSize > 0`
    fails), and the custom-LZ decoder's output when it is compressed and the
    payload decompresses to the declared size.  Instantiated at the spec
    scenario (entry offset 8, sizes 0/5, payload "hello") by the witness. -/
theorem fst_readFile_roundtrip (fuel : Nat) (zlibM : List Nat → List Nat → Nat × List Nat)
    (file : List Nat) (e : FstEntry) (out : List Nat)
    (hrange : e.dataOffset +
      (if isCompressedB e then e.compressedSize else e.uncompressedSize) ≤ file.length)
    (hlz : isCompressedB e = true →
      lzDecompressF fuel ((file.drop e.dataOffset).take e.compressedSize) e.uncompressedSize =
        some (e.uncompressedSize, out) ∧ out.length = e.uncompressedSize) :
    (readFileM fuel zlibM file freshOpen e).1 =
      some (if isCompressedB e then out else (file.drop e.dataOffset).take e.uncompressedSize) ∧
    (if isCompressedB e then out else (file.drop e.dataOffset).take e.uncompressedSize).length =
      e.uncompressedSize := by
  cases hc : isCompressedB e with
  | false =>
    simp only [hc, if_false, Bool.false_eq_true] at hrange ⊢
    have hlen : ((file.drop e.dataOffset).take e.uncompressedSize).length = e.uncompressedSize := by
      simp only [List.length_take, List.length_drop]
      omega
    refine ⟨?_, hlen⟩
    simp only [readFileM, hc, if_false, Bool.false_eq_true]
    rw [if_neg (by decide : ¬ (¬ freshOpen.opn = true))]
    by_cases hz : e.uncompressedSize = 0
    · have hemp : (file.drop e.dataOffset).take e.uncompressedSize = [] := by simp [hz]
      simp only [readRawDataFst, hz, hemp]
      simp
    · rw [readRawDataFst_fresh file e.dataOffset e.uncompressedSize hz hrange]
      have hne : (file.drop e.dataOffset).take e.uncompressedSize ≠ [] := by
        intro hnil
        rw [hnil] at hlen
        simp at hlen
        exact hz hlen.symm
      simp [hne]
  | true =>
    obtain ⟨hl1, hl2⟩ := hlz hc
    have hcs : e.compressedSize < e.uncompressedSize ∧ 0 < e.compressedSize :=
      of_decide_eq_true hc
    simp only [hc, if_true] at hrange ⊢
    refine ⟨?_, hl2⟩
    simp only [readFileM, hc, if_true]
    rw [if_neg (by decide : ¬ (¬ freshOpen.opn = true))]
    rw [readRawDataFst_fresh file e.dataOffset e.compressedSize (by omega) hrange]
    have hlenr : ((file.drop e.dataOffset).take e.compressedSize).length = e.compressedSize := by
      simp only [List.length_take, List.length_drop]
      omega
    have hne : (file.drop e.dataOffset).take e.compressedSize ≠ [] := by
      intro hnil
      rw [hnil] at hlenr
      simp at hlenr
      omega
    simp only [hne, if_false]
    have hguard : ¬ ((file.drop e.dataOffset).take e.compressedSize = [] ∨
        e.uncompressedSize = 0) := by
      rintro (h | h)
      · exact hne h
      · omega
    simp only [decompressM, hguard, if_false, Bool.false_eq_true, hl1]
    have hnot : ¬ e.uncompressedSize < e.uncompressedSize / 2 := by
      have := Nat.div_le_self e.uncompressedSize 2
      omega
    simp only [hnot, if_false, hl2, Nat.sub_self, List.replicate_zero, List.append_nil]
    have hz2 : ¬ e.uncompressedSize = 0 := by omega
    simp [hz2, ← hl2]

/-- C6 witness: the spec scenario — a 13-byte file with payload "hello" at
    offset 8 and the entry `{offset=8, compressedSize=0, uncompressedSize=5,
    path="a.txt"}` — yields exactly the bytes of "hello". -/
theorem fst_readFile_roundtrip_witness :
    (readFileM 1 zlibNever helloFile freshOpen helloEntry).1 =
      some [104, 101, 108, 108, 111] := by
  have h := fst_readFile_roundtrip 1 zlibNever helloFile helloEntry []
    (by decide) (fun hcc => absurd hcc (by decide))
  rw [h.1]
  decide

lemma u32sub_of_le {a b : Nat} (h : b ≤ a) (ha : a < 4294967296) : u32sub a b = a - b := by
  unfold u32sub
  omega

lemma mkEntriesSt_map_offset (file : List Nat) (fsz : Nat) :
    ∀ (words : List Nat) (st : StreamSt),
      (mkEntriesSt file fsz words st).1.map (·.offset) = words.map (· % 536870912) := by
  intro words
  induction words with
  | nil => intro st; rfl
  | cons w rest ih =>
    intro st
    simp only [mkEntriesSt, List.map_cons]
    rw [ih]

lemma mkEntriesSt_sum (file : List Nat) (fsz : Nat) (hfsz : fsz < 4294967296) :
    ∀ (rest : List Nat) (w : Nat) (st : StreamSt),
      List.Chain' (· ≤ ·) (((w :: rest).map (· % 536870912)) ++ [fsz]) →
      ((mkEntriesSt file fsz (w :: rest) st).1.map (·.packedSize)).sum = fsz - w % 536870912 ∧
        w % 536870912 ≤ fsz := by
  intro rest
  induction rest with
  | nil =>
    intro w st hch
    simp only [List.map_cons, List.map_nil, List.nil_append, List.cons_append] at hch
    have hle : w % 536870912 ≤ fsz := by
      rcases List.chain'_cons.mp hch with ⟨h1, _⟩
      exact h1
    simp only [mkEntriesSt, List.map_cons, List.map_nil, List.sum_cons, List.sum_nil]
    rw [u32sub_of_le hle hfsz]
    omega
  | cons w2 rest2 ih =>
    intro w st hch
    simp only [List.map_cons, List.cons_append] at hch
    rcases List.chain'_cons.mp hch with ⟨h12, hch2⟩
    have hch2' : List.Chain' (· ≤ ·) (((w2 :: rest2).map (· % 536870912)) ++ [fsz]) := by
      simpa using hch2
    rw [mkEntriesSt]
    simp only [List.map_cons, List.sum_cons]
    obtain ⟨hsum, hle2⟩ := ih w2 ((if w / 536870912 = 2 ∨ w / 536870912 = 4 then
        readUnpacked file st (w % 536870912)
      else if w / 536870912 = 0 ∨ w / 536870912 = 1 then
        (u32sub (w2 % 536870912) (w % 536870912), st)
      else (0, st)).2) hch2'
    rw [hsum]
    have hw2 : w2 % 536870912 < 4294967296 := by
      have := Nat.mod_lt w2 (show 0 < 536870912 by omega)
      omega
    rw [u32sub_of_le h12 hw2]
    omega

lemma readSeekTableM_shape (file : List Nat) (st : StreamSt) :
    ∃ words st', (readSeekTableM file st).2.1 =
      (mkEntriesSt file (file.length % 4294967296) words st').1 := by
  by_cases h1 : (sread file st 4).2.fail = true
  · exact ⟨[], st, by simp only [readSeekTableM, h1, if_true]; rfl⟩
  · by_cases h2 : (sread file (sread file st 4).2 4).2.fail = true
    · exact ⟨[], st, by simp only [readSeekTableM, h1, h2, if_true, if_false,
        Bool.false_eq_true]; rfl⟩
    · by_cases h3 : 1000000 < u32sub (leNat (sread file (sread file st 4).2 4).1 / 4) 2 ∨
        file.length < leNat (sread file (sread file st 4).2 4).1
      · exact ⟨[], st, by simp only [readSeekTableM, h1, h2, h3, if_true, if_false,
          Bool.false_eq_true]; rfl⟩
      · by_cases h4 : (sread file (sread file (sread file st 4).2 4).2
            (u32sub (leNat (sread file (sread file st 4).2 4).1 / 4) 2 * 4)).2.fail = true
        · exact ⟨[], st, by simp only [readSeekTableM, h1, h2, h3, h4, if_true, if_false,
            Bool.false_eq_true]; rfl⟩
        · refine ⟨chunk4 (sread file (sread file (sread file st 4).2 4).2
            (u32sub (leNat (sread file (sread file st 4).2 4).1 / 4) 2 * 4)).1,
            (sread file (sread file (sread file st 4).2 4).2
            (u32sub (leNat (sread file (sread file st 4).2 4).1 / 4) 2 * 4)).2, ?_⟩
          simp only [readSeekTableM, h1, h2, h3, h4, if_true, if_false, Bool.false_eq_true]

/-- C5 (corrected, amended part): for a successfully opened seek-table
    archive whose directory offsets are nondecreasing, end no later than the
    file size, and whose first offset equals the header size
    `8 + 4 * count` (with file size below `2^32`), the derived `packedSize`
    values tile the file: their sum plus the header size equals the file
    size, Null entries included (their derived size is the gap to the next
    offset, 0 in a tiling directory).  Without these directory conditions —
    which `open` never checks — the tiling fails, and `getPacketSize` itself
    returns the stored `unpackedSize`, which for compressed entries comes
    from the packet's size prefix and need not tile; see the counterexample. -/
theorem pak_packed_sizes_tile (fs : String → Option (List Nat)) (h : PakHandle) (p : String)
    (h' : PakHandle) (hopen : openPakM fs h p = (true, h'))
    (hne : h'.entries ≠ [])
    (hchain : List.Chain' (· ≤ ·) (h'.entries.map (·.offset) ++ [h'.fileSize]))
    (hfst : (h'.entries.map (·.offset)).head? = some (8 + 4 * h'.entries.length))
    (hsz : h'.fileSize < 4294967296) :
    (h'.entries.map (·.packedSize)).sum + (8 + 4 * h'.entries.length) = h'.fileSize := by
  unfold openPakM at hopen
  rcases hfs : fs p with _ | file
  · rw [hfs] at hopen
    simp only [Prod.mk.injEq] at hopen
    exact absurd hopen.1 (by decide)
  · rw [hfs] at hopen
    simp only [] at hopen
    split at hopen
    · simp only [Prod.mk.injEq] at hopen
      obtain ⟨-, hh⟩ := hopen
      subst hh
      simp only [] at hne hchain hfst hsz ⊢
      obtain ⟨words, st', hshape⟩ := readSeekTableM_shape file freshOpen
      rw [Nat.mod_eq_of_lt hsz] at hshape
      rw [hshape] at hne hchain hfst ⊢
      rw [mkEntriesSt_map_offset] at hchain hfst
      cases words with
      | nil => exact absurd rfl hne
      | cons w rest =>
        have hlen : (mkEntriesSt file file.length (w :: rest) st').1.length =
            rest.length + 1 := by
          have := congrArg List.length (mkEntriesSt_map_offset file file.length (w :: rest) st')
          simpa using this
        obtain ⟨hsum, hle⟩ := mkEntriesSt_sum file file.length hsz rest w st' hchain
        rw [hsum, hlen]
        simp only [List.map_cons, List.head?_cons, Option.some.injEq] at hfst
        rw [hlen] at hfst
        omega
    · simp only [Prod.mk.injEq] at hopen
      exact absurd hopen.1 (by decide)

/-- C5 (counterexample): a successfully opened 20-byte archive with one RAW
    entry whose offset word says 14 (directory ends at 12): both the
    `getPacketSize` sum and the derived `packedSize` sum give 6, and
    6 + headerSize 12 = 18 ≠ 20 = fileSize. -/
theorem pak_sizes_tile_counterexample :
    (openPakM (fun _ => some pakCexFile) pakFresh "c").1 = true ∧
    ((List.range (openPakM (fun _ => some pakCexFile) pakFresh "c").2.entries.length).map
        (getPacketSizeM (openPakM (fun _ => some pakCexFile) pakFresh "c").2)).sum +
      (8 + 4 * (openPakM (fun _ => some pakCexFile) pakFresh "c").2.entries.length) ≠
      (openPakM (fun _ => some pakCexFile) pakFresh "c").2.fileSize ∧
    ((openPakM (fun _ => some pakCexFile) pakFresh "c").2.entries.map (·.packedSize)).sum +
      (8 + 4 * (openPakM (fun _ => some pakCexFile) pakFresh "c").2.entries.length) ≠
      (openPakM (fun _ => some pakCexFile) pakFresh "c").2.fileSize := by
  refine ⟨by decide, by decide, by decide⟩

/-- C5 witness: a well-formed one-entry archive (offset 12, size 20) tiles:
    8 + 12 = 20. -/
theorem pak_packed_sizes_tile_witness :
    (openPakM (fun _ => some pakOkFile) pakFresh "g").1 = true ∧
    ((openPakM (fun _ => some pakOkFile) pakFresh "g").2.entries.map (·.packedSize)).sum +
      (8 + 4 * (openPakM (fun _ => some pakOkFile) pakFresh "g").2.entries.length) =
      (openPakM (fun _ => some pakOkFile) pakFresh "g").2.fileSize := by
  have hch : List.Chain' (· ≤ ·)
      ((openPakM (fun _ => some pakOkFile) pakFresh "g").2.entries.map (·.offset) ++
        [(openPakM (fun _ => some pakOkFile) pakFresh "g").2.fileSize]) := by
    rw [show ((openPakM (fun _ => some pakOkFile) pakFresh "g").2.entries.map (·.offset) ++
      [(openPakM (fun _ => some pakOkFile) pakFresh "g").2.fileSize]) = [12, 20] from by decide]
    simp [List.chain'_cons]
  refine ⟨by decide, pak_packed_sizes_tile (fun _ => some pakOkFile) pakFresh "g" _ ?_
    (by decide) hch (by decide) (by decide)⟩
  exact Prod.ext (by decide) rfl


lemma getD_set_ne (l : List Nat) (i j a : Nat) (h : i ≠ j) :
    (l.set i a).getD j 0 = l.getD j 0 := by
  rw [List.getD_eq_getElem?_getD, List.getD_eq_getElem?_getD, List.getElem?_set_ne h]

lemma writeAt_pix_length (w h v : Nat) (s : RleSt) :
    (writeAt w h v s).pix.length = s.pix.length := by
  unfold writeAt
  split <;> simp

lemma rleLit_pix_length (mem : Nat → Nat) (endPos w h : Nat) :
    ∀ (c : Nat) (s : RleSt), (rleLit mem endPos w h c s).pix.length = s.pix.length := by
  intro c
  induction c with
  | zero => intro s; rfl
  | succ c ih =>
    intro s
    unfold rleLit
    split
    · rw [ih]
      simp [writeAt_pix_length]
    · rfl

lemma rleRun_pix_length (w h v : Nat) :
    ∀ (c : Nat) (s : RleSt), (rleRun w h v c s).pix.length = s.pix.length := by
  intro c
  induction c with
  | zero => intro s; rfl
  | succ c ih =>
    intro s
    unfold rleRun
    rw [ih]
    simp [writeAt_pix_length]

lemma decodeRLEM_pix_length (mem : Nat → Nat) (endPos w h : Nat) :
    ∀ (fuel : Nat) (s : RleSt), (decodeRLEM mem endPos w h fuel s).pix.length = s.pix.length := by
  intro fuel
  induction fuel with
  | zero => intro s; rfl
  | succ f ih =>
    intro s
    simp only [decodeRLEM]
    split
    · split
      · rw [ih]
      · split
        · split
          · rfl
          · rw [ih]
        · split
          · rw [ih, rleLit_pix_length]
          · split
            · rfl
            · rw [ih, rleRun_pix_length]
    · rfl

lemma writeAt_zero (w h v : Nat) (s : RleSt) (hP : RleZero s) : RleZero (writeAt w h v s) := by
  unfold writeAt
  split
  · intro j hj
    simp only [List.mem_cons, not_or] at hj
    obtain ⟨hne, hnot⟩ := hj
    exact (getD_set_ne _ _ _ _ (Ne.symm hne)).trans (hP j hnot)
  · exact hP

lemma rleLit_zero (mem : Nat → Nat) (endPos w h : Nat) :
    ∀ (c : Nat) (s : RleSt), RleZero s → RleZero (rleLit mem endPos w h c s) := by
  intro c
  induction c with
  | zero => intro s hP; exact hP
  | succ c ih =>
    intro s hP
    unfold rleLit
    split
    · exact ih _ (writeAt_zero _ _ _ _ hP)
    · exact hP

lemma rleRun_zero (w h v : Nat) :
    ∀ (c : Nat) (s : RleSt), RleZero s → RleZero (rleRun w h v c s) := by
  intro c
  induction c with
  | zero => intro s hP; exact hP
  | succ c ih =>
    intro s hP
    unfold rleRun
    exact ih _ (writeAt_zero _ _ _ _ hP)

lemma decodeRLEM_zero (mem : Nat → Nat) (endPos w h : Nat) :
    ∀ (fuel : Nat) (s : RleSt), RleZero s → RleZero (decodeRLEM mem endPos w h fuel s) := by
  intro fuel
  induction fuel with
  | zero => intro s hP; exact hP
  | succ f ih =>
    intro s hP
    simp only [decodeRLEM]
    split
    · split
      · exact ih _ hP
      · split
        · split
          · exact hP
          · exact ih _ hP
        · split
          · exact ih _ (rleLit_zero _ _ _ _ _ _ hP)
          · split
            · exact hP
            · exact ih _ (rleRun_zero _ _ _ _ _ hP)
    · exact hP

/-- C10 (confirmed): for every loaded shape table and every index, the decoded
    image is either the empty default or satisfies the invariant: width and
    height in (0, 1024], `pixels.size = width * height`, and every pixel
    position not written by an RLE packet (not in the ghost write list) holds
    the transparent index 0 — for arbitrary, possibly truncated or malformed
    RLE data. -/
theorem shape_decode_invariant (mem : Nat → Nat) (size : Nat) (L : LoadedShape) (i : Nat)
    (hL : loadShapeM mem size = some L) :
    decodeShapeFull mem size L i = (defaultShape, []) ∨
    (0 < (decodeShapeFull mem size L i).1.width ∧
     (decodeShapeFull mem size L i).1.width ≤ 1024 ∧
     0 < (decodeShapeFull mem size L i).1.height ∧
     (decodeShapeFull mem size L i).1.height ≤ 1024 ∧
     (decodeShapeFull mem size L i).1.pixels.length =
       (decodeShapeFull mem size L i).1.width.toNat *
         (decodeShapeFull mem size L i).1.height.toNat ∧
     ∀ j, j ∉ (decodeShapeFull mem size L i).2 →
       (decodeShapeFull mem size L i).1.pixels.getD j 0 = 0) := by
  by_cases h1 : L.shapeCount ≤ i
  · left
    simp only [decodeShapeFull]
    rw [if_pos h1]
  by_cases h2 : size < L.offsets.getD i 0 + 24
  · left
    simp only [decodeShapeFull]
    rw [if_neg h1, if_pos h2]
  by_cases h3 : leI32 mem (L.offsets.getD i 0 + 16) - leI32 mem (L.offsets.getD i 0 + 8) + 1 ≤ 0 ∨
      leI32 mem (L.offsets.getD i 0 + 20) - leI32 mem (L.offsets.getD i 0 + 12) + 1 ≤ 0 ∨
      1024 < leI32 mem (L.offsets.getD i 0 + 16) - leI32 mem (L.offsets.getD i 0 + 8) + 1 ∨
      1024 < leI32 mem (L.offsets.getD i 0 + 20) - leI32 mem (L.offsets.getD i 0 + 12) + 1
  · left
    simp only [decodeShapeFull]
    rw [if_neg h1, if_neg h2, if_pos h3]
  by_cases h4 : size ≤ L.offsets.getD i 0 + 24
  · left
    simp only [decodeShapeFull]
    rw [if_neg h1, if_neg h2, if_neg h3, if_pos h4]
  right
  push_neg at h3
  obtain ⟨hw0, hh0, hw1, hh1⟩ := h3
  simp only [decodeShapeFull]
  rw [if_neg h1, if_neg h2, if_neg (by push_neg; exact ⟨hw0, hh0, hw1, hh1⟩), if_neg h4]
  refine ⟨by simpa using hw0, by simpa using hw1, by simpa using hh0, by simpa using hh1, ?_, ?_⟩
  · simp [decodeRLEM_pix_length]
  · intro j hj
    have hz : RleZero ⟨List.replicate
        ((leI32 mem (L.offsets.getD i 0 + 16) - leI32 mem (L.offsets.getD i 0 + 8) + 1).toNat *
         (leI32 mem (L.offsets.getD i 0 + 20) - leI32 mem (L.offsets.getD i 0 + 12) + 1).toNat) 0,
        [], 0, 0, L.offsets.getD i 0 + 24⟩ := by
      intro j2 _
      simp [List.getD_eq_getElem?_getD]
    exact decodeRLEM_zero _ _ _ _ _ _ hz j hj

/-- C10 witness: the valid 2x2 fixture decodes with all invariants intact. -/
theorem shape_decode_invariant_witness :
    loadShapeM shpOk 43 = some ⟨0, 1, [16]⟩ ∧
      (decodeShapeFull shpOk 43 ⟨0, 1, [16]⟩ 0 = (defaultShape, []) ∨
       (0 < (decodeShapeFull shpOk 43 ⟨0, 1, [16]⟩ 0).1.width ∧
        (decodeShapeFull shpOk 43 ⟨0, 1, [16]⟩ 0).1.width ≤ 1024 ∧
        0 < (decodeShapeFull shpOk 43 ⟨0, 1, [16]⟩ 0).1.height ∧
        (decodeShapeFull shpOk 43 ⟨0, 1, [16]⟩ 0).1.height ≤ 1024 ∧
        (decodeShapeFull shpOk 43 ⟨0, 1, [16]⟩ 0).1.pixels.length =
          (decodeShapeFull shpOk 43 ⟨0, 1, [16]⟩ 0).1.width.toNat *
            (decodeShapeFull shpOk 43 ⟨0, 1, [16]⟩ 0).1.height.toNat ∧
        ∀ j, j ∉ (decodeShapeFull shpOk 43 ⟨0, 1, [16]⟩ 0).2 →
          (decodeShapeFull shpOk 43 ⟨0, 1, [16]⟩ 0).1.pixels.getD j 0 = 0)) :=
  ⟨by decide, shape_decode_invariant shpOk 43 ⟨0, 1, [16]⟩ 0 (by decide)⟩

lemma leU32_congr {mem1 mem2 : Nat → Nat} {B : Nat} (a : Nat)
    (hag : ∀ k, k < B → mem1 k = mem2 k) (h : a + 4 ≤ B) : leU32 mem1 a = leU32 mem2 a := by
  unfold leU32
  rw [hag a (by omega), hag (a + 1) (by omega), hag (a + 2) (by omega), hag (a + 3) (by omega)]

lemma leI32_congr {mem1 mem2 : Nat → Nat} {B : Nat} (a : Nat)
    (hag : ∀ k, k < B → mem1 k = mem2 k) (h : a + 4 ≤ B) : leI32 mem1 a = leI32 mem2 a := by
  unfold leI32
  rw [leU32_congr a hag h]

lemma rleLit_frame (mem1 mem2 : Nat → Nat) (endPos w h : Nat)
    (hag : ∀ k, k < endPos → mem1 k = mem2 k) :
    ∀ (c : Nat) (s : RleSt), rleLit mem1 endPos w h c s = rleLit mem2 endPos w h c s := by
  intro c
  induction c with
  | zero => intro s; rfl
  | succ c ih =>
    intro s
    simp only [rleLit]
    split
    · next hpos =>
      rw [hag s.pos hpos]
      exact ih _
    · rfl

lemma decodeRLEM_frame (mem1 mem2 : Nat → Nat) (endPos w h : Nat)
    (hag : ∀ k, k < endPos → mem1 k = mem2 k) :
    ∀ (fuel : Nat) (s : RleSt),
      decodeRLEM mem1 endPos w h fuel s = decodeRLEM mem2 endPos w h fuel s := by
  intro fuel
  induction fuel with
  | zero => intro s; rfl
  | succ f ih =>
    intro s
    simp only [decodeRLEM]
    split
    · next hc =>
      rw [hag s.pos hc.1]
      split
      · exact ih _
      · split
        · split
          · rfl
          · next hp2 =>
            rw [hag (s.pos + 1) (by omega)]
            exact ih _
        · split
          · rw [rleLit_frame mem1 mem2 endPos w h hag]
            exact ih _
          · split
            · rfl
            · next hp2 =>
              rw [hag (s.pos + 1) (by omega)]
              exact ih _
    · rfl

/-- C2 (corrected, amended part): the RLE region consumed by `decodeShape`
    starts immediately after the 24-byte header; its end is `offsets[i+1]`
    when the shape is not the last one and that offset lies past the header,
    and the buffer end otherwise — the code never clamps `offsets[i+1]` to
    the buffer length, so the region can extend past the buffer.  Decoding
    reads no byte at or beyond `rleBound` (the maximum of the buffer length
    and that computed end): two buffers agreeing below `rleBound` decode
    identically.  In particular, when `offsets[i+1] ≤ size` no byte at or
    past the buffer length is read; when it exceeds the size, bytes past the
    buffer are read (see the counterexample). -/
theorem shape_rle_region_frame (size : Nat) (L : LoadedShape) (i : Nat) (mem1 mem2 : Nat → Nat)
    (hag : ∀ k, k < rleBound size L i → mem1 k = mem2 k) :
    decodeShapeFull mem1 size L i = decodeShapeFull mem2 size L i := by
  have hsb : size ≤ rleBound size L i := by
    simp only [rleBound]
    split
    · exact Nat.le_max_left _ _
    · exact Nat.le_refl _
  have hags : ∀ k, k < size → mem1 k = mem2 k := fun k hk => hag k (by omega)
  by_cases h1 : L.shapeCount ≤ i
  · simp only [decodeShapeFull]
    rw [if_pos h1, if_pos h1]
  by_cases h2 : size < L.offsets.getD i 0 + 24
  · simp only [decodeShapeFull]
    rw [if_neg h1, if_pos h2, if_neg h1, if_pos h2]
  have horig := leU32_congr (L.offsets.getD i 0 + 4) hags (by omega)
  have hxmin := leI32_congr (L.offsets.getD i 0 + 8) hags (by omega)
  have hymin := leI32_congr (L.offsets.getD i 0 + 12) hags (by omega)
  have hxmax := leI32_congr (L.offsets.getD i 0 + 16) hags (by omega)
  have hymax := leI32_congr (L.offsets.getD i 0 + 20) hags (by omega)
  have hend : ∀ k, k < L.offsets.getD i 0 + 24 +
      (if i + 1 < L.shapeCount ∧ L.offsets.getD i 0 + 24 < L.offsets.getD (i + 1) 0 then
        L.offsets.getD (i + 1) 0 - (L.offsets.getD i 0 + 24)
      else size - (L.offsets.getD i 0 + 24)) → mem1 k = mem2 k := by
    intro k hk
    apply hag
    simp only [rleBound]
    split
    · next hcond =>
      rw [if_pos hcond] at hk
      have : L.offsets.getD i 0 + 24 + (L.offsets.getD (i + 1) 0 - (L.offsets.getD i 0 + 24)) =
          L.offsets.getD (i + 1) 0 := by omega
      rw [this] at hk
      omega
    · next hcond =>
      rw [if_neg hcond] at hk
      omega
  simp only [decodeShapeFull]
  rw [if_neg h1, if_neg h1, if_neg h2, if_neg h2, horig, hxmin, hymin, hxmax, hymax,
    decodeRLEM_frame mem1 mem2 _ _ _ hend]

/-- C2 witness: on a table whose second offset equals the buffer length, the
    read bound is the buffer length and bytes past it are irrelevant. -/
theorem shape_rle_region_frame_witness :
    (∀ k, k < rleBound 49 shpFrameL 0 → shpFrame1 k = shpFrame2 k) ∧
      decodeShapeFull shpFrame1 49 shpFrameL 0 = decodeShapeFull shpFrame2 49 shpFrameL 0 := by
  have hag : ∀ k, k < rleBound 49 shpFrameL 0 → shpFrame1 k = shpFrame2 k := by
    have hb : rleBound 49 shpFrameL 0 = 49 := by decide
    rw [hb]
    intro k hk
    unfold shpFrame1 shpFrame2
    rw [if_pos hk]
  exact ⟨hag, shape_rle_region_frame 49 shpFrameL 0 shpFrame1 shpFrame2 hag⟩

/-- C2 (counterexample): a two-shape table of 49 bytes whose `offsets[1] = 51`
    exceeds the buffer length; the two byte functions agree on every position
    below the buffer length 49 yet `decodeShape` returns different pixels, so
    a byte at or past the buffer length is read while decoding shape 0 — the
    region is not truncated at `min(offsets[i+1], bufferLen)`. -/
theorem shape_rle_reads_past_buffer_counterexample :
    loadShapeM shpCex1 49 = some shpCexL ∧
    loadShapeM shpCex2 49 = some shpCexL ∧
    (∀ k, k < 49 → shpCex1 k = shpCex2 k) ∧
    decodeShapeFull shpCex1 49 shpCexL 0 ≠ decodeShapeFull shpCex2 49 shpCexL 0 := by
  refine ⟨by decide, by decide, ?_, by decide⟩
  intro k hk
  have hlen : shpCexData.length = 49 := by decide
  unfold shpCex1 shpCex2
  rw [List.getD_append _ _ _ _ (by omega), List.getD_append _ _ _ _ (by omega)]

/-- C8 (confirmed): whenever the header of shape `i` yields a width or height
    outside (0, 1024] — width = xmax - xmin + 1, height = ymax - ymin + 1 —
    `decodeShape` rejects the shape and returns the empty default image with
    no pixels written. -/
theorem shape_oversize_rejected (mem : Nat → Nat) (size : Nat) (L : LoadedShape) (i : Nat)
    (hL : loadShapeM mem size = some L) (hi : i < L.shapeCount)
    (hhdr : L.offsets.getD i 0 + 24 ≤ size)
    (hbad : leI32 mem (L.offsets.getD i 0 + 16) - leI32 mem (L.offsets.getD i 0 + 8) + 1 ≤ 0 ∨
      leI32 mem (L.offsets.getD i 0 + 20) - leI32 mem (L.offsets.getD i 0 + 12) + 1 ≤ 0 ∨
      1024 < leI32 mem (L.offsets.getD i 0 + 16) - leI32 mem (L.offsets.getD i 0 + 8) + 1 ∨
      1024 < leI32 mem (L.offsets.getD i 0 + 20) - leI32 mem (L.offsets.getD i 0 + 12) + 1) :
    decodeShapeFull mem size L i = (defaultShape, []) := by
  simp only [decodeShapeFull]
  rw [if_neg (by omega), if_neg (by omega), if_pos hbad]

/-- C8 witness: a shape with xmax = 1024, xmin = 0 (width 1025) is rejected. -/
theorem shape_oversize_rejected_witness :
    loadShapeM shpRej 40 = some ⟨0, 1, [16]⟩ ∧
      decodeShapeFull shpRej 40 ⟨0, 1, [16]⟩ 0 = (defaultShape, []) :=
  ⟨by decide,
   shape_oversize_rejected shpRej 40 ⟨0, 1, [16]⟩ 0 (by decide) (by decide) (by decide)
     (by decide)⟩

end McgNG
